import Mathlib

/-!
Shallow embedding of the statistics aggregation and delta-reporting pipeline
of `docs.py` (project i17o).

Python dicts are modelled as insertion-ordered association lists
`List (String × α)` with unique keys; dict indexing, assignment, removal and
`defaultdict` access are modelled by the explicit operations below.
Integer counts are modelled as `Int` (Python integers are unbounded).
A JSON stats record with possibly-missing fields is `PStat`
(`none` = the field is absent from the dict); a fully-populated record is
`Stat`.
-/

/-- The five fixed stat fields (`STATS_FIELDS`, docs.py lines 18-24),
as a fully-populated record: the shape of
`{field: 0 for field in STATS_FIELDS}` after accumulation. -/
structure Stat where
  reviewed : Int
  translated_entities : Int
  translated_words : Int
  untranslated_entities : Int
  untranslated_words : Int
deriving DecidableEq

/-- A record over the five fixed fields in which any field may be absent:
the shape of a raw JSON stats dict, and also of a per-resource delta dict
(only changed fields present). -/
structure PStat where
  reviewed : Option Int
  translated_entities : Option Int
  translated_words : Option Int
  untranslated_entities : Option Int
  untranslated_words : Option Int
deriving DecidableEq

/-- The all-zero record `{field: 0 for field in STATS_FIELDS}`
(the `defaultdict` factory in docs.py lines 60 and 116). -/
def Stat.zero : Stat := ⟨0, 0, 0, 0, 0⟩

/-- The empty dict `{}` as a `PStat`: every field absent. -/
def PStat.empty : PStat := ⟨none, none, none, none, none⟩

/-- Whether a record dict is empty (no field present): `for field in stats`
iterates zero times exactly when this holds. -/
def PStat.isEmpty (r : PStat) : Bool :=
  r.reviewed.isNone && r.translated_entities.isNone && r.translated_words.isNone
    && r.untranslated_entities.isNone && r.untranslated_words.isNone

/-- `updated_report[resource][field] += stats[field]` for every field present
in `stats`: add each present field of `r` to `s` (absent fields add 0). -/
def addRaw (s : Stat) (r : PStat) : Stat :=
  ⟨s.reviewed + r.reviewed.getD 0,
   s.translated_entities + r.translated_entities.getD 0,
   s.translated_words + r.translated_words.getD 0,
   s.untranslated_entities + r.untranslated_entities.getD 0,
   s.untranslated_words + r.untranslated_words.getD 0⟩

/-- Field-wise negation of a delta record (absent fields stay absent). -/
def PStat.neg (d : PStat) : PStat :=
  ⟨d.reviewed.map (fun x => -x),
   d.translated_entities.map (fun x => -x),
   d.translated_words.map (fun x => -x),
   d.untranslated_entities.map (fun x => -x),
   d.untranslated_words.map (fun x => -x)⟩

/-! ### Dict primitives over association lists -/

/-- Dict lookup `m[k]` / `m.get(k)`: first entry with the given key. -/
def lookupKey {α : Type} (k : String) : List (String × α) → Option α
  | [] => none
  | kv :: rest => if kv.1 = k then some kv.2 else lookupKey k rest

/-- Dict assignment `m[k] = v`: overwrite in place if the key exists
(keeping its position), otherwise append at the end. -/
def setKey {α : Type} (m : List (String × α)) (k : String) (v : α) : List (String × α) :=
  match m with
  | [] => [(k, v)]
  | kv :: rest => if kv.1 = k then (k, v) :: rest else kv :: setKey rest k v

/-- Dict removal `m.pop(k)`'s effect on the dict: drop entries keyed `k`. -/
def removeKey {α : Type} (k : String) : List (String × α) → List (String × α)
  | [] => []
  | kv :: rest => if kv.1 = k then removeKey k rest else kv :: removeKey k rest

/-- The key list of a dict. -/
def keys {α : Type} (m : List (String × α)) : List String := m.map Prod.fst

/-! ### Descending sort (`sorted(..., reverse=True)`) -/

/-- Lexicographic comparison of character lists by code point: how Python
compares strings. -/
def charsLe : List Char → List Char → Bool
  | [], _ => true
  | _ :: _, [] => false
  | a :: as, b :: bs => if a < b then true else if b < a then false else charsLe as bs

/-- Python's `a <= b` on strings: lexicographic by code point. -/
def strLe (a b : String) : Bool := charsLe a.data b.data

/-- Insert an element into a list sorted descending by `key`. -/
def insertDesc {α : Type} (key : α → String) (x : α) : List α → List α
  | [] => [x]
  | y :: ys => if strLe (key y) (key x) then x :: y :: ys else y :: insertDesc key x ys

/-- `sorted(l, key=key, reverse=True)`: descending insertion sort. -/
def sortDesc {α : Type} (key : α → String) (l : List α) : List α :=
  l.foldr (insertDesc key) []

/-! ### `Transifex.stats` (docs.py lines 55-66) -/

/-- The fold `for resource, stat in response: stats[resource] = stat`
starting from an empty dict (the `defaultdict` factory is never invoked,
since plain assignment does not read the missing key). -/
def buildDict (response : List (String × PStat)) : List (String × PStat) :=
  response.foldl (fun m kv => setKey m kv.1 kv.2) []

/-- `Transifex.stats` (docs.py lines 55-66) after the network gather:
fold the `(resource, stat)` pairs into a dict, then
`stats["glossary"] = stats.pop("glossary_")` — `pop` on a missing key raises
`KeyError` (a `defaultdict` factory is not consulted by `pop`), modelled as
`none` — then rebuild the dict with keys sorted descending. -/
def Transifex.stats (response : List (String × PStat)) : Option (List (String × PStat)) :=
  let stats := buildDict response
  match lookupKey "glossary_" stats with
  | none => none
  | some g => some (sortDesc Prod.fst (setKey (removeKey "glossary_" stats) "glossary" g))

/-! ### `serialize_report` (docs.py lines 115-128) -/

/-- `resource.split("--")[0]` on the underlying characters: everything
before the first occurrence of `--` (the whole string if none). -/
def groupKeyAux : List Char → List Char
  | [] => []
  | '-' :: '-' :: _ => []
  | c :: rest => c :: groupKeyAux rest

/-- `resource.split("--")[0]`. -/
def groupKey (s : String) : String := String.mk (groupKeyAux s.data)

/-- `defaultdict` accumulation `updated_report[resource][field] += stats[field]`
over all present fields of one record: update the existing entry in place, or
create a zero-initialised entry at the end if the key is new. -/
def bump (m : List (String × Stat)) (k : String) (r : PStat) : List (String × Stat) :=
  match m with
  | [] => [(k, addRaw Stat.zero r)]
  | kv :: rest => if kv.1 = k then (kv.1, addRaw kv.2 r) :: rest else kv :: bump rest k r

/-- The output key of one input entry:
`if group_resources: resource = resource.split("--")[0]`. -/
def targetKey (group_resources : Bool) (k : String) : String :=
  if group_resources then groupKey k else k

/-- One iteration of the grouping loop of `serialize_report`
(docs.py lines 118-123): an entry whose record dict is empty never touches
the accumulator (the inner `for field in stats` loop runs zero times, so the
`defaultdict` key is never created); otherwise every present field is added
into the entry for the (possibly grouped) key. -/
def groupStep (group_resources : Bool) (acc : List (String × Stat))
    (kv : String × PStat) : List (String × Stat) :=
  if kv.2.isEmpty then acc else bump acc (targetKey group_resources kv.1) kv.2

/-- The grouping loop of `serialize_report` (docs.py lines 118-123). -/
def group_records (report : List (String × PStat)) (group_resources : Bool) :
    List (String × Stat) :=
  report.foldl (groupStep group_resources) []

/-- The reserved-key rename of `serialize_report` (docs.py lines 125-126):
`if updated_report.get("glossary_"): updated_report["glossary"] = updated_report.pop("glossary_")`.
The value at `"glossary_"` is always a non-empty five-field dict, hence truthy,
so the guard is exactly key presence; `.get` on a `defaultdict` does not
insert the missing key. -/
def renameGlossary (m : List (String × Stat)) : List (String × Stat) :=
  match lookupKey "glossary_" m with
  | none => m
  | some g => setKey (removeKey "glossary_" m) "glossary" g

/-- `serialize_report` (docs.py lines 115-128): group/accumulate, then the
reserved-glossary-key rename on the grouped output. -/
def serialize_report (report : List (String × PStat)) (group_resources : Bool) :
    List (String × Stat) :=
  renameGlossary (group_records report group_resources)

/-! ### `compare_reports` (docs.py lines 138-145, the comparison loop) -/

/-- One field of the comparison loop:
`if value != previous_value: report[resource][stat] = value - previous_value`;
an unchanged field is not placed in the delta dict. -/
def diffField (value previous : Int) : Option Int :=
  if value = previous then none else some (value - previous)

/-- The per-resource delta record of the comparison loop, over all five fields
of the latest record (grouped records always carry all five fields). -/
def diffStat (latest previous : Stat) : PStat :=
  ⟨diffField latest.reviewed previous.reviewed,
   diffField latest.translated_entities previous.translated_entities,
   diffField latest.translated_words previous.translated_words,
   diffField latest.untranslated_entities previous.untranslated_entities,
   diffField latest.untranslated_words previous.untranslated_words⟩

/-- The comparison loop of `compare_reports` (docs.py lines 138-145): for each
resource of `latest`, read `previous_report[resource]` — `previous_report` is
the `defaultdict` returned by `serialize_report`, so a missing resource yields
the all-zero record rather than a `KeyError` — and record every changed field;
a resource with no changed field is never inserted into the result. -/
def compare_reports (latest previous : List (String × Stat)) : List (String × PStat) :=
  match latest with
  | [] => []
  | (resource, stats) :: rest =>
    let d := diffStat stats ((lookupKey resource previous).getD Stat.zero)
    if d.isEmpty then compare_reports rest previous
    else (resource, d) :: compare_reports rest previous

/-! ### The whitelist filter of `report` (docs.py lines 152-158) -/

/-- `{k: v for k, v in report[resource].items() if k in ["reviewed", "translated_words"]}`:
keep only the whitelisted fields of one delta record. -/
def PStat.restrict (d : PStat) : PStat :=
  ⟨d.reviewed, none, d.translated_words, none, none⟩

/-- The filtering loop of `report` (docs.py lines 152-158):
`for resource in report: report[resource] = {... if k in ["reviewed", "translated_words"]}`.
Every resource key is kept; only its value dict is restricted. -/
def filter_reportable (report : List (String × PStat)) : List (String × PStat) :=
  report.map (fun kv => (kv.1, kv.2.restrict))

/-! ### `select_report_files` (docs.py lines 96-112) -/

/-- `select_report_files` (docs.py lines 96-112) over a directory modelled as
a map from filename to parsed file content:
`stats_files = sorted(os.listdir(output), reverse=True)`,
`latest_file = stats_files[0]` (an empty directory raises `IndexError`,
modelled as `none`), `previous_file = stats_files[6]` when more than 7 files
exist and `stats_files[-1]` otherwise, then both files are opened and parsed
(modelled as lookup of the filename's content). -/
def select_report_files {α : Type} (dir : List (String × α)) : Option (α × α) :=
  let stats_files := sortDesc id (keys dir)
  match stats_files.head? with
  | none => none
  | some latest_file =>
    match (if 7 < stats_files.length then stats_files[6]? else stats_files.getLast?) with
    | none => none
    | some previous_file =>
      match lookupKey latest_file dir, lookupKey previous_file dir with
      | some a, some b => some (a, b)
      | _, _ => none

/-! ### Order lemmas for `strLe` -/

theorem charsLe_refl (a : List Char) : charsLe a a = true := by
  induction a with
  | nil => rfl
  | cons x xs ih => simp [charsLe, lt_irrefl, ih]

theorem strLe_refl (a : String) : strLe a a = true := charsLe_refl a.data

theorem charsLe_total (a b : List Char) : charsLe a b = true ∨ charsLe b a = true := by
  induction a generalizing b with
  | nil => exact Or.inl rfl
  | cons x xs ih =>
    cases b with
    | nil => exact Or.inr rfl
    | cons y ys =>
      rcases lt_trichotomy x y with h | h | h
      · left; simp [charsLe, h]
      · subst h
        rcases ih ys with h' | h'
        · left; simpa [charsLe, lt_irrefl] using h'
        · right; simpa [charsLe, lt_irrefl] using h'
      · right; simp [charsLe, h]

theorem strLe_total (a b : String) : strLe a b = true ∨ strLe b a = true :=
  charsLe_total a.data b.data

theorem charsLe_trans {a b c : List Char} (h1 : charsLe a b = true)
    (h2 : charsLe b c = true) : charsLe a c = true := by
  induction a generalizing b c with
  | nil => rfl
  | cons x xs ih =>
    cases b with
    | nil => simp [charsLe] at h1
    | cons y ys =>
      cases c with
      | nil => simp [charsLe] at h2
      | cons z zs =>
        rcases lt_trichotomy x y with hxy | hxy | hxy
        · rcases lt_trichotomy y z with hyz | hyz | hyz
          · simp [charsLe, lt_trans hxy hyz]
          · subst hyz; simp [charsLe, hxy]
          · simp [charsLe, hyz, asymm hyz] at h2
        · subst hxy
          rcases lt_trichotomy x z with hyz | hyz | hyz
          · simp [charsLe, hyz]
          · subst hyz
            simp only [charsLe, lt_irrefl, if_false, ite_self] at h1 h2 ⊢
            exact ih h1 h2
          · simp [charsLe, hyz, asymm hyz] at h2
        · simp [charsLe, hxy, asymm hxy] at h1

theorem strLe_trans {a b c : String} (h1 : strLe a b = true) (h2 : strLe b c = true) :
    strLe a c = true := charsLe_trans h1 h2

theorem strLe_of_not_strLe {a b : String} (h : ¬ strLe a b = true) : strLe b a = true := by
  rcases strLe_total a b with h' | h'
  · exact absurd h' h
  · exact h'

/-! ### Dict lemmas -/

theorem lookupKey_eq_some_mem {α : Type} {m : List (String × α)} {k : String} {v : α}
    (h : lookupKey k m = some v) : (k, v) ∈ m := by
  induction m with
  | nil => simp [lookupKey] at h
  | cons kv rest ih =>
    by_cases hk : kv.1 = k
    · simp only [lookupKey, if_pos hk, Option.some.injEq] at h
      subst h; subst hk
      exact List.mem_cons_self _ _
    · simp only [lookupKey, if_neg hk] at h
      exact List.mem_cons_of_mem _ (ih h)

theorem lookupKey_eq_none_iff {α : Type} {m : List (String × α)} {k : String} :
    lookupKey k m = none ↔ k ∉ keys m := by
  induction m with
  | nil => simp [lookupKey, keys]
  | cons kv rest ih =>
    by_cases hk : kv.1 = k
    · simp [lookupKey, hk, keys]
    · simp [lookupKey, hk, keys, ih, Ne.symm hk]

theorem lookupKey_isSome_of_mem_keys {α : Type} {m : List (String × α)} {k : String}
    (h : k ∈ keys m) : ∃ v, lookupKey k m = some v := by
  cases hv : lookupKey k m with
  | none => exact absurd (lookupKey_eq_none_iff.mp hv) (fun hn => hn h)
  | some v => exact ⟨v, rfl⟩

theorem lookupKey_of_mem_of_nodup {α : Type} {m : List (String × α)} {k : String} {v : α}
    (hnd : (keys m).Nodup) (h : (k, v) ∈ m) : lookupKey k m = some v := by
  induction m with
  | nil => simp at h
  | cons kv rest ih =>
    simp only [keys, List.map_cons, List.nodup_cons] at hnd
    rcases List.mem_cons.mp h with he | hm
    · cases kv
      cases he
      simp [lookupKey]
    · have hk : kv.1 ≠ k := by
        intro he
        exact hnd.1 (by rw [he]; exact List.mem_map_of_mem Prod.fst hm)
      simp only [lookupKey, if_neg hk]
      exact ih hnd.2 hm

theorem lookupKey_setKey_self {α : Type} (m : List (String × α)) (k : String) (v : α) :
    lookupKey k (setKey m k v) = some v := by
  induction m with
  | nil => simp [setKey, lookupKey]
  | cons kv rest ih =>
    by_cases h : kv.1 = k
    · simp [setKey, h, lookupKey]
    · simp [setKey, h, lookupKey, ih]

theorem lookupKey_setKey_ne {α : Type} (m : List (String × α)) (k k' : String) (v : α)
    (h : k' ≠ k) : lookupKey k' (setKey m k v) = lookupKey k' m := by
  induction m with
  | nil => simp [setKey, lookupKey, Ne.symm h]
  | cons kv rest ih =>
    by_cases hk : kv.1 = k
    · subst hk
      by_cases hk' : kv.1 = k'
      · exact absurd (hk' ▸ rfl) (Ne.symm h)
      · simp [setKey, lookupKey, hk', Ne.symm h]
    · simp only [setKey, if_neg hk]
      by_cases hk' : kv.1 = k'
      · simp [lookupKey, hk']
      · simp [lookupKey, hk', ih]

theorem lookupKey_removeKey_self {α : Type} (m : List (String × α)) (k : String) :
    lookupKey k (removeKey k m) = none := by
  induction m with
  | nil => simp [removeKey, lookupKey]
  | cons kv rest ih =>
    by_cases h : kv.1 = k
    · simp [removeKey, h, ih]
    · simp [removeKey, h, lookupKey, ih]

theorem lookupKey_removeKey_ne {α : Type} (m : List (String × α)) (k k' : String)
    (h : k' ≠ k) : lookupKey k' (removeKey k m) = lookupKey k' m := by
  induction m with
  | nil => simp [removeKey]
  | cons kv rest ih =>
    by_cases hk : kv.1 = k
    · have hne : kv.1 ≠ k' := fun he => h (he ▸ hk)
      simp [removeKey, hk, lookupKey, hne, Ne.symm h, ih]
    · simp [removeKey, hk, lookupKey, ih]

theorem mem_keys_setKey {α : Type} (m : List (String × α)) (k a : String) (v : α) :
    a ∈ keys (setKey m k v) ↔ a = k ∨ a ∈ keys m := by
  induction m with
  | nil => simp [setKey, keys]
  | cons kv rest ih =>
    by_cases h : kv.1 = k
    · subst h
      simp [setKey, keys]
    · simp only [keys] at ih ⊢
      simp [setKey, h, List.mem_cons, ih]
      tauto

theorem mem_keys_removeKey {α : Type} (m : List (String × α)) (k a : String) :
    a ∈ keys (removeKey k m) ↔ a ∈ keys m ∧ a ≠ k := by
  induction m with
  | nil => simp [removeKey, keys]
  | cons kv rest ih =>
    by_cases h : kv.1 = k
    · subst h
      simp only [keys] at ih ⊢
      simp [removeKey, ih]
      intro he hk
      exact absurd hk he
    · simp only [keys] at ih ⊢
      simp [removeKey, h, List.mem_cons, ih]
      constructor
      · rintro (he | ⟨hm, hn⟩)
        · exact ⟨Or.inl he, fun hk => h (by rw [← he, hk])⟩
        · exact ⟨Or.inr hm, hn⟩
      · rintro ⟨he | hm, hn⟩
        · exact Or.inl he
        · exact Or.inr ⟨hm, hn⟩

theorem nodup_keys_setKey {α : Type} (m : List (String × α)) (k : String) (v : α)
    (hnd : (keys m).Nodup) : (keys (setKey m k v)).Nodup := by
  induction m with
  | nil => simp [setKey, keys]
  | cons kv rest ih =>
    rw [keys, List.map_cons, List.nodup_cons] at hnd
    by_cases h : kv.1 = k
    · subst h
      simpa [setKey, keys, List.nodup_cons] using hnd
    · simp only [setKey, if_neg h, keys, List.map_cons, List.nodup_cons]
      refine ⟨fun hm => ?_, ih hnd.2⟩
      rcases (mem_keys_setKey rest k kv.1 v).mp hm with he | hm'
      · exact h he
      · exact hnd.1 hm'

theorem nodup_keys_removeKey {α : Type} (m : List (String × α)) (k : String)
    (hnd : (keys m).Nodup) : (keys (removeKey k m)).Nodup := by
  induction m with
  | nil => simp [removeKey, keys]
  | cons kv rest ih =>
    rw [keys, List.map_cons, List.nodup_cons] at hnd
    by_cases h : kv.1 = k
    · simp only [removeKey, if_pos h]
      exact ih hnd.2
    · simp only [removeKey, if_neg h, keys, List.map_cons, List.nodup_cons]
      exact ⟨fun hm => hnd.1 ((mem_keys_removeKey rest k kv.1).mp hm).1, ih hnd.2⟩

/-! ### Sort lemmas -/

theorem perm_insertDesc {α : Type} (key : α → String) (x : α) (l : List α) :
    List.Perm (insertDesc key x l) (x :: l) := by
  induction l with
  | nil => exact List.Perm.refl _
  | cons y ys ih =>
    by_cases h : strLe (key y) (key x) = true
    · simp [insertDesc, h]
    · simp only [insertDesc, if_neg h]
      exact (ih.cons y).trans (List.Perm.swap x y ys)

theorem perm_sortDesc {α : Type} (key : α → String) (l : List α) :
    List.Perm (sortDesc key l) l := by
  induction l with
  | nil => exact List.Perm.refl _
  | cons x xs ih =>
    exact (perm_insertDesc key x (sortDesc key xs)).trans (ih.cons x)

theorem mem_sortDesc {α : Type} (key : α → String) (l : List α) (a : α) :
    a ∈ sortDesc key l ↔ a ∈ l := (perm_sortDesc key l).mem_iff

theorem length_sortDesc {α : Type} (key : α → String) (l : List α) :
    (sortDesc key l).length = l.length := (perm_sortDesc key l).length_eq

theorem pairwise_insertDesc {α : Type} (key : α → String) (x : α) (l : List α)
    (h : l.Pairwise (fun a b => strLe (key b) (key a) = true)) :
    (insertDesc key x l).Pairwise (fun a b => strLe (key b) (key a) = true) := by
  induction l with
  | nil => simp [insertDesc]
  | cons y ys ih =>
    rw [List.pairwise_cons] at h
    by_cases hxy : strLe (key y) (key x) = true
    · simp only [insertDesc, if_pos hxy]
      rw [List.pairwise_cons]
      refine ⟨fun z hz => ?_, List.pairwise_cons.mpr h⟩
      rcases List.mem_cons.mp hz with he | hm
      · exact he ▸ hxy
      · exact strLe_trans (h.1 z hm) hxy
    · simp only [insertDesc, if_neg hxy]
      rw [List.pairwise_cons]
      refine ⟨fun z hz => ?_, ih h.2⟩
      rcases List.mem_cons.mp ((perm_insertDesc key x ys).mem_iff.mp hz) with he | hm
      · exact he ▸ strLe_of_not_strLe hxy
      · exact h.1 z hm

theorem pairwise_sortDesc {α : Type} (key : α → String) (l : List α) :
    (sortDesc key l).Pairwise (fun a b => strLe (key b) (key a) = true) := by
  induction l with
  | nil => simp [sortDesc]
  | cons x xs ih => exact pairwise_insertDesc key x (sortDesc key xs) ih

theorem pairwise_head_max {α : Type} {key : α → String} {s : List α} {x a : α}
    (hp : s.Pairwise (fun a b => strLe (key b) (key a) = true))
    (hh : s.head? = some x) (ha : a ∈ s) : strLe (key a) (key x) = true := by
  cases s with
  | nil => simp at hh
  | cons h t =>
    simp only [List.head?_cons, Option.some.injEq] at hh
    subst hh
    rcases List.mem_cons.mp ha with he | hm
    · exact he ▸ strLe_refl _
    · exact (List.pairwise_cons.mp hp).1 a hm

theorem pairwise_getLast_min {α : Type} {key : α → String} {s : List α} {p a : α}
    (hp : s.Pairwise (fun a b => strLe (key b) (key a) = true))
    (hl : s.getLast? = some p) (ha : a ∈ s) : strLe (key p) (key a) = true := by
  induction s with
  | nil => simp at hl
  | cons x t ih =>
    cases t with
    | nil =>
      simp only [List.getLast?_singleton, Option.some.injEq] at hl
      subst hl
      simp only [List.mem_singleton] at ha
      exact ha ▸ strLe_refl _
    | cons y u =>
      rw [List.getLast?_cons_cons] at hl
      rcases List.mem_cons.mp ha with he | hm
      · subst he
        have hpm : p ∈ y :: u := by
          obtain ⟨h0, he⟩ := List.mem_getLast?_eq_getLast (Option.mem_def.mpr hl)
          exact he ▸ List.getLast_mem h0
        exact (List.pairwise_cons.mp hp).1 p hpm
      · exact ih (List.pairwise_cons.mp hp).2 hl hm

theorem lookupKey_eq_of_perm {α : Type} {m m' : List (String × α)} (hp : List.Perm m m')
    (hnd : (keys m).Nodup) (k : String) : lookupKey k m = lookupKey k m' := by
  have hnd' : (keys m').Nodup := ((hp.map Prod.fst).nodup_iff).mp hnd
  cases hv : lookupKey k m with
  | none =>
    have hk : k ∉ keys m := lookupKey_eq_none_iff.mp hv
    have hk' : k ∉ keys m' := fun hm => hk (((hp.map Prod.fst).mem_iff).mpr hm)
    exact (lookupKey_eq_none_iff.mpr hk').symm
  | some v =>
    exact (lookupKey_of_mem_of_nodup hnd' (hp.mem_iff.mp (lookupKey_eq_some_mem hv))).symm

theorem nodup_keys_sortDesc {α : Type} (m : List (String × α))
    (hnd : (keys m).Nodup) : (keys (sortDesc Prod.fst m)).Nodup :=
  (((perm_sortDesc Prod.fst m).map Prod.fst).nodup_iff).mpr hnd

theorem lookupKey_sortDesc {α : Type} (m : List (String × α)) (k : String)
    (hnd : (keys m).Nodup) :
    lookupKey k (sortDesc Prod.fst m) = lookupKey k m :=
  lookupKey_eq_of_perm (perm_sortDesc Prod.fst m) (nodup_keys_sortDesc m hnd) k

/-! ### `buildDict` lemmas -/

theorem mem_keys_foldl_setKey {α : Type} (resp : List (String × α))
    (acc : List (String × α)) (a : String) :
    a ∈ keys (resp.foldl (fun m kv => setKey m kv.1 kv.2) acc) ↔
      a ∈ keys acc ∨ a ∈ keys resp := by
  induction resp generalizing acc with
  | nil => simp [keys]
  | cons kv rest ih =>
    rw [List.foldl_cons, ih]
    rw [mem_keys_setKey]
    simp only [keys, List.map_cons, List.mem_cons]
    tauto

theorem nodup_keys_foldl_setKey {α : Type} (resp : List (String × α))
    (acc : List (String × α)) (hnd : (keys acc).Nodup) :
    (keys (resp.foldl (fun m kv => setKey m kv.1 kv.2) acc)).Nodup := by
  induction resp generalizing acc with
  | nil => exact hnd
  | cons kv rest ih =>
    rw [List.foldl_cons]
    exact ih _ (nodup_keys_setKey acc kv.1 kv.2 hnd)

theorem mem_keys_buildDict (resp : List (String × PStat)) (a : String) :
    a ∈ keys (buildDict resp) ↔ a ∈ keys resp := by
  rw [buildDict, mem_keys_foldl_setKey]
  simp [keys]

theorem nodup_keys_buildDict (resp : List (String × PStat)) :
    (keys (buildDict resp)).Nodup :=
  nodup_keys_foldl_setKey resp [] (by simp [keys])

/-! ### `bump` and grouping-fold lemmas -/

theorem lookupKey_bump_self (m : List (String × Stat)) (k : String) (r : PStat) :
    lookupKey k (bump m k r) = some (addRaw ((lookupKey k m).getD Stat.zero) r) := by
  induction m with
  | nil => simp [bump, lookupKey]
  | cons kv rest ih =>
    by_cases h : kv.1 = k
    · subst h; simp [bump, lookupKey]
    · simp [bump, h, lookupKey, ih]

theorem lookupKey_bump_ne (m : List (String × Stat)) (k k' : String) (r : PStat)
    (h : k' ≠ k) : lookupKey k' (bump m k r) = lookupKey k' m := by
  induction m with
  | nil => simp [bump, lookupKey, Ne.symm h]
  | cons kv rest ih =>
    by_cases hk : kv.1 = k
    · subst hk
      simp [bump, lookupKey, Ne.symm h, ih]
    · simp [bump, hk, lookupKey, ih]

theorem mem_keys_bump (m : List (String × Stat)) (k a : String) (r : PStat) :
    a ∈ keys (bump m k r) ↔ a = k ∨ a ∈ keys m := by
  induction m with
  | nil => simp [bump, keys]
  | cons kv rest ih =>
    by_cases h : kv.1 = k
    · subst h
      simp [bump, keys]
    · simp only [keys] at ih ⊢
      simp [bump, h, List.mem_cons, ih]
      tauto

theorem nodup_keys_bump (m : List (String × Stat)) (k : String) (r : PStat)
    (hnd : (keys m).Nodup) : (keys (bump m k r)).Nodup := by
  induction m with
  | nil => simp [bump, keys]
  | cons kv rest ih =>
    simp only [keys, List.map_cons, List.nodup_cons] at hnd
    by_cases h : kv.1 = k
    · subst h
      have hb : bump (kv :: rest) kv.1 r = (kv.1, addRaw kv.2 r) :: rest := by
        simp [bump]
      rw [hb]
      simp only [keys, List.map_cons, List.nodup_cons]
      exact hnd
    · simp only [bump, if_neg h, keys, List.map_cons, List.nodup_cons]
      refine ⟨fun hm => ?_, ih hnd.2⟩
      rcases (mem_keys_bump rest k kv.1 r).mp hm with he | hm'
      · exact h he
      · exact hnd.1 hm'

theorem mem_keys_groupStep (g : Bool) (acc : List (String × Stat)) (kv : String × PStat)
    (a : String) :
    a ∈ keys (groupStep g acc kv) ↔
      a ∈ keys acc ∨ (kv.2.isEmpty = false ∧ targetKey g kv.1 = a) := by
  by_cases he : kv.2.isEmpty
  · simp [groupStep, he]
  · rw [groupStep, if_neg he, mem_keys_bump]
    simp [Bool.not_eq_true] at he
    simp [he, eq_comm]
    tauto

theorem mem_keys_foldl_groupStep (g : Bool) (S : List (String × PStat))
    (acc : List (String × Stat)) (a : String) :
    a ∈ keys (S.foldl (groupStep g) acc) ↔
      a ∈ keys acc ∨ ∃ kv, kv ∈ S ∧ kv.2.isEmpty = false ∧ targetKey g kv.1 = a := by
  induction S generalizing acc with
  | nil => simp
  | cons kv rest ih =>
    rw [List.foldl_cons, ih, mem_keys_groupStep]
    simp only [List.mem_cons]
    constructor
    · rintro ((h | h) | ⟨kv', hm, h1, h2⟩)
      · exact Or.inl h
      · exact Or.inr ⟨kv, Or.inl rfl, h⟩
      · exact Or.inr ⟨kv', Or.inr hm, h1, h2⟩
    · rintro (h | ⟨kv', he | hm, h1, h2⟩)
      · exact Or.inl (Or.inl h)
      · subst he; exact Or.inl (Or.inr ⟨h1, h2⟩)
      · exact Or.inr ⟨kv', hm, h1, h2⟩

theorem nodup_keys_foldl_groupStep (g : Bool) (S : List (String × PStat))
    (acc : List (String × Stat)) (hnd : (keys acc).Nodup) :
    (keys (S.foldl (groupStep g) acc)).Nodup := by
  induction S generalizing acc with
  | nil => exact hnd
  | cons kv rest ih =>
    rw [List.foldl_cons]
    refine ih _ ?_
    by_cases he : kv.2.isEmpty
    · simpa [groupStep, he] using hnd
    · rw [groupStep, if_neg he]
      exact nodup_keys_bump _ _ _ hnd

theorem nodup_keys_group_records (S : List (String × PStat)) (g : Bool) :
    (keys (group_records S g)).Nodup :=
  nodup_keys_foldl_groupStep g S [] (by simp [keys])

theorem lookupKey_foldl_groupStep_untouched (g : Bool) (S : List (String × PStat))
    (acc : List (String × Stat)) (k : String)
    (h : ∀ kv ∈ S, targetKey g kv.1 ≠ k) :
    lookupKey k (S.foldl (groupStep g) acc) = lookupKey k acc := by
  induction S generalizing acc with
  | nil => rfl
  | cons kv rest ih =>
    rw [List.foldl_cons, ih _ (fun kv' hm => h kv' (List.mem_cons_of_mem kv hm))]
    by_cases he : kv.2.isEmpty
    · simp [groupStep, he]
    · rw [groupStep, if_neg he]
      exact lookupKey_bump_ne acc _ k kv.2 (Ne.symm (h kv (List.mem_cons_self kv rest)))

theorem lookupKey_foldl_groupStep_false (S : List (String × PStat)) :
    ∀ (acc : List (String × Stat)) (k : String),
      (keys S).Nodup → k ∉ keys acc →
      lookupKey k (S.foldl (groupStep false) acc) =
        (lookupKey k S).bind
          (fun r => if r.isEmpty then none else some (addRaw Stat.zero r)) := by
  induction S with
  | nil =>
    intro acc k _ hk
    simp [lookupKey, lookupKey_eq_none_iff.mpr hk]
  | cons kv rest ih =>
    intro acc k hnd hk
    simp only [keys, List.map_cons, List.nodup_cons] at hnd
    rw [List.foldl_cons]
    by_cases hkv : kv.1 = k
    · subst hkv
      have hrest : ∀ kv' ∈ rest, targetKey false kv'.1 ≠ kv.1 := by
        intro kv' hm he
        rw [targetKey, if_neg (by simp)] at he
        exact hnd.1 (he ▸ List.mem_map_of_mem Prod.fst hm)
      rw [lookupKey_foldl_groupStep_untouched false rest _ kv.1 hrest]
      by_cases he : kv.2.isEmpty
      · rw [groupStep, if_pos he]
        simp [lookupKey, lookupKey_eq_none_iff.mpr hk, he]
      · rw [groupStep, if_neg he]
        rw [targetKey, if_neg (by simp)]
        rw [lookupKey_bump_self, lookupKey_eq_none_iff.mpr hk]
        simp only [Bool.not_eq_true] at he
        simp [lookupKey, he]
    · have hk' : k ∉ keys (groupStep false acc kv) := by
        rw [mem_keys_groupStep]
        rintro (hm | ⟨_, he⟩)
        · exact hk hm
        · rw [targetKey, if_neg (by simp)] at he
          exact hkv he
      rw [ih _ k (by simpa [keys] using hnd.2) hk']
      simp [lookupKey, hkv]

/-! ### `renameGlossary` lemmas -/

theorem lookupKey_renameGlossary_old (m : List (String × Stat)) :
    lookupKey "glossary_" (renameGlossary m) = none := by
  rw [renameGlossary]
  cases h : lookupKey "glossary_" m with
  | none => exact h
  | some g =>
    rw [lookupKey_setKey_ne _ _ _ _ (by decide)]
    exact lookupKey_removeKey_self m "glossary_"

theorem lookupKey_renameGlossary_new (m : List (String × Stat)) :
    lookupKey "glossary" (renameGlossary m) =
      match lookupKey "glossary_" m with
      | some g => some g
      | none => lookupKey "glossary" m := by
  rw [renameGlossary]
  cases h : lookupKey "glossary_" m with
  | none => rfl
  | some g => exact lookupKey_setKey_self _ _ _

theorem lookupKey_renameGlossary_other (m : List (String × Stat)) (k : String)
    (h1 : k ≠ "glossary") (h2 : k ≠ "glossary_") :
    lookupKey k (renameGlossary m) = lookupKey k m := by
  rw [renameGlossary]
  cases h : lookupKey "glossary_" m with
  | none => rfl
  | some g =>
    rw [lookupKey_setKey_ne _ _ _ _ h1]
    exact lookupKey_removeKey_ne m _ k h2

/-! ### `compare_reports` and `diffStat` lemmas -/

theorem isNone_map (f : Int → Int) (o : Option Int) : (o.map f).isNone = o.isNone := by
  cases o <;> rfl

theorem diffField_self (x : Int) : diffField x x = none := by simp [diffField]

theorem diffStat_self_isEmpty (s : Stat) : (diffStat s s).isEmpty = true := by
  simp [diffStat, diffField_self, PStat.isEmpty]

theorem diffField_neg (x y : Int) : diffField x y = (diffField y x).map (fun z => -z) := by
  by_cases h : x = y
  · simp [diffField, h]
  · simp [diffField, h, Ne.symm h, neg_sub]

theorem diffStat_neg (a b : Stat) : diffStat a b = PStat.neg (diffStat b a) := by
  simp only [diffStat, PStat.neg, PStat.mk.injEq]
  exact ⟨diffField_neg _ _, diffField_neg _ _, diffField_neg _ _,
    diffField_neg _ _, diffField_neg _ _⟩

theorem isEmpty_neg (d : PStat) : (PStat.neg d).isEmpty = d.isEmpty := by
  cases d
  simp [PStat.neg, PStat.isEmpty, isNone_map]

theorem lookupKey_compare_none (latest : List (String × Stat)) :
    ∀ (previous : List (String × Stat)) (k : String), k ∉ keys latest →
      lookupKey k (compare_reports latest previous) = none := by
  induction latest with
  | nil => intro previous k _; rfl
  | cons kv rest ih =>
    intro previous k h
    simp only [keys, List.map_cons, List.mem_cons, not_or] at h
    obtain ⟨kv1, kv2⟩ := kv
    rw [compare_reports]
    have ihr := ih previous k (by simpa [keys] using h.2)
    by_cases he : (diffStat kv2 ((lookupKey kv1 previous).getD Stat.zero)).isEmpty
    · rw [if_pos he]
      exact ihr
    · rw [if_neg he, lookupKey,
        if_neg (show ¬ kv1 = k from fun hh => h.1 hh.symm)]
      exact ihr

theorem lookupKey_compare (latest : List (String × Stat)) :
    ∀ (previous : List (String × Stat)) (k : String), (keys latest).Nodup →
      lookupKey k (compare_reports latest previous) =
        (lookupKey k latest).bind (fun s =>
          if (diffStat s ((lookupKey k previous).getD Stat.zero)).isEmpty then none
          else some (diffStat s ((lookupKey k previous).getD Stat.zero))) := by
  induction latest with
  | nil => intro previous k _; rfl
  | cons kv rest ih =>
    intro previous k hnd
    simp only [keys, List.map_cons, List.nodup_cons] at hnd
    obtain ⟨kv1, kv2⟩ := kv
    rw [compare_reports]
    by_cases hkv : kv1 = k
    · subst hkv
      have hrest : kv1 ∉ keys rest := by simpa [keys] using hnd.1
      by_cases he : (diffStat kv2 ((lookupKey kv1 previous).getD Stat.zero)).isEmpty
      · rw [if_pos he]
        rw [lookupKey_compare_none rest previous kv1 hrest]
        simp [lookupKey, he]
      · rw [if_neg he, lookupKey, if_pos rfl]
        simp [lookupKey, he]
    · have ihr := ih previous k (by simpa [keys] using hnd.2)
      by_cases he : (diffStat kv2 ((lookupKey kv1 previous).getD Stat.zero)).isEmpty
      · rw [if_pos he, ihr]
        simp [lookupKey, hkv]
      · rw [if_neg he, lookupKey, if_neg hkv, ihr]
        simp [lookupKey, hkv]

/-! ### `addRaw` lemmas -/

theorem addRaw_of_isEmpty (s : Stat) (r : PStat) (h : r.isEmpty = true) : addRaw s r = s := by
  obtain ⟨a, b, c, d, e⟩ := r
  simp only [PStat.isEmpty, Bool.and_eq_true, Option.isNone_iff_eq_none] at h
  obtain ⟨⟨⟨⟨ha, hb⟩, hc⟩, hd⟩, he⟩ := h
  subst ha; subst hb; subst hc; subst hd; subst he
  simp [addRaw]

/-! ## Claims -/

theorem compare_reports_eq_nil (previous : List (String × Stat)) :
    ∀ (l : List (String × Stat)),
      (∀ kv ∈ l, lookupKey kv.1 previous = some kv.2) →
      compare_reports l previous = [] := by
  intro l
  induction l with
  | nil => intro _; rfl
  | cons kv rest ih =>
    intro h
    obtain ⟨k0, s0⟩ := kv
    rw [compare_reports]
    have h0 := h (k0, s0) (List.mem_cons_self _ _)
    rw [h0]
    have hcond : (diffStat s0 ((some s0).getD Stat.zero)).isEmpty = true := by
      simpa using diffStat_self_isEmpty s0
    rw [if_pos hcond]
    exact ih (fun kv hm => h kv (List.mem_cons_of_mem _ hm))

/-- Claim C4: for every grouped snapshot `X` (a dict, so its keys are
distinct), `compare_reports X X` is the empty delta report: every per-field
delta is zero, zero deltas are omitted, and a resource with no non-zero
delta is never inserted. -/
theorem c4_compare_self_empty (X : List (String × Stat)) (hnd : (keys X).Nodup) :
    compare_reports X X = [] := by
  refine compare_reports_eq_nil X X (fun kv hm => ?_)
  exact lookupKey_of_mem_of_nodup hnd (by simpa using hm)

/-- Witness for C4 at a concrete grouped snapshot. -/
theorem c4_witness :
    (keys [("c-api", (⟨1, 2, 3, 4, 5⟩ : Stat))]).Nodup ∧
      compare_reports [("c-api", (⟨1, 2, 3, 4, 5⟩ : Stat))]
        [("c-api", (⟨1, 2, 3, 4, 5⟩ : Stat))] = [] :=
  ⟨by decide, c4_compare_self_empty _ (by decide)⟩

/-- Claim C5 counterexample: with `A = {}` and `B = {"x": {reviewed: 1, ...0}}`,
`compare_reports B A` retains a delta for `"x"` while `compare_reports A B`
is empty, so the retained delta has no corresponding (negated) delta on the
swapped side: anti-symmetry fails for snapshots with different key sets. -/
theorem c5_counterexample :
    compare_reports [("x", (⟨1, 0, 0, 0, 0⟩ : Stat))] [] =
        [("x", (⟨some 1, none, none, none, none⟩ : PStat))] ∧
      compare_reports [] [("x", (⟨1, 0, 0, 0, 0⟩ : Stat))] = [] := by decide

/-- Claim C5 (amended): anti-symmetry holds for the resources present in both
snapshots — every delta retained in `compare_reports B A` whose resource is a
key of `A` is the field-wise negation of the corresponding delta retained in
`compare_reports A B`. -/
theorem c5_antisymmetry (A B : List (String × Stat)) (k : String) (d : PStat)
    (hA : (keys A).Nodup) (hB : (keys B).Nodup) (hkA : k ∈ keys A)
    (hd : lookupKey k (compare_reports B A) = some d) :
    ∃ d2, lookupKey k (compare_reports A B) = some d2 ∧ d = PStat.neg d2 := by
  obtain ⟨sa, hsa⟩ := lookupKey_isSome_of_mem_keys hkA
  rw [lookupKey_compare B A k hB] at hd
  cases hsb : lookupKey k B with
  | none => rw [hsb] at hd; simp at hd
  | some sb =>
    rw [hsb, hsa] at hd
    simp only [Option.some_bind, Option.getD_some] at hd
    by_cases he : (diffStat sb sa).isEmpty
    · rw [if_pos he] at hd; cases hd
    · rw [if_neg he] at hd
      have hds : diffStat sb sa = d := by
        cases hd
        rfl
      refine ⟨diffStat sa sb, ?_, ?_⟩
      · rw [lookupKey_compare A B k hA, hsa]
        simp only [Option.some_bind, hsb, Option.getD_some]
        rw [if_neg (by rw [diffStat_neg sa sb, isEmpty_neg]; exact he)]
      · rw [← hds, diffStat_neg sb sa]

/-- Witness for C5 (amended) at concrete snapshots. -/
theorem c5_witness :
    ∃ d2, lookupKey "x"
        (compare_reports [("x", (⟨1, 0, 0, 0, 0⟩ : Stat))]
          [("x", (⟨3, 0, 0, 0, 0⟩ : Stat))]) = some d2 ∧
      (⟨some 2, none, none, none, none⟩ : PStat) = PStat.neg d2 :=
  c5_antisymmetry [("x", ⟨1, 0, 0, 0, 0⟩)] [("x", ⟨3, 0, 0, 0, 0⟩)] "x"
    ⟨some 2, none, none, none, none⟩ (by decide) (by decide) (by decide) (by decide)

/-- Claim C1 counterexample: a resource present in `latest` and absent as a
key of `reference` does NOT make the comparison fail — `previous_report` is a
`defaultdict`, so the missing resource reads as the all-zero record and a
delta is produced for it. -/
theorem c1_counterexample :
    compare_reports [("c-api", (⟨1, 2, 3, 4, 5⟩ : Stat))] [] =
      [("c-api", (⟨some 1, some 2, some 3, some 4, some 5⟩ : PStat))] := by decide

/-- Claim C1 (amended): for every resource of `latest` absent as a key of
`reference`, the comparison treats the reference record as all-zero and
retains, for each field, the latest value itself when it is non-zero
(`v - 0 = v`); it does not fail. -/
theorem c1_missing_reference_zero (latest reference : List (String × Stat))
    (k : String) (s : Stat) (hnd : (keys latest).Nodup)
    (hl : lookupKey k latest = some s) (hr : lookupKey k reference = none) :
    lookupKey k (compare_reports latest reference) =
        (if (diffStat s Stat.zero).isEmpty then none else some (diffStat s Stat.zero))
      ∧ diffStat s Stat.zero =
        ⟨if s.reviewed = 0 then none else some s.reviewed,
         if s.translated_entities = 0 then none else some s.translated_entities,
         if s.translated_words = 0 then none else some s.translated_words,
         if s.untranslated_entities = 0 then none else some s.untranslated_entities,
         if s.untranslated_words = 0 then none else some s.untranslated_words⟩ := by
  constructor
  · rw [lookupKey_compare latest reference k hnd, hl, hr]
    rfl
  · simp [diffStat, diffField, Stat.zero]

/-- Witness for C1 (amended) at concrete snapshots. -/
theorem c1_witness :
    lookupKey "c-api"
        (compare_reports [("c-api", (⟨1, 0, 0, 0, 0⟩ : Stat))]
          [("other", (⟨9, 9, 9, 9, 9⟩ : Stat))]) =
      (if ((diffStat ⟨1, 0, 0, 0, 0⟩ Stat.zero).isEmpty : Bool) then none
       else some (diffStat ⟨1, 0, 0, 0, 0⟩ Stat.zero)) :=
  (c1_missing_reference_zero [("c-api", ⟨1, 0, 0, 0, 0⟩)] [("other", ⟨9, 9, 9, 9, 9⟩)]
    "c-api" ⟨1, 0, 0, 0, 0⟩ (by decide) (by decide) (by decide)).1

/-- Claim C3 counterexample: a resource whose delta mapping becomes empty
after the whitelist filter is NOT dropped — its key stays in the result,
mapped to the empty dict (the loop reassigns `report[resource]` and removes
no key). -/
theorem c3_counterexample :
    filter_reportable [("x", (⟨none, some 5, none, none, none⟩ : PStat))] =
        [("x", PStat.empty)] ∧
      lookupKey "x" (filter_reportable [("x", (⟨none, some 5, none, none, none⟩ : PStat))])
        ≠ none ∧
      PStat.empty.isEmpty = true := by decide

/-- Claim C3 (amended): the whitelist filter restricts every resource's delta
mapping to the fields `reviewed` and `translated_words`, and keeps every
resource key — a resource whose mapping becomes empty stays in the result
with an empty mapping (it is only skipped later, at formatting time). -/
theorem c3_filter_keeps_keys (R : List (String × PStat)) (k : String) :
    lookupKey k (filter_reportable R) = (lookupKey k R).map PStat.restrict := by
  induction R with
  | nil => rfl
  | cons kv rest ih =>
    by_cases h : kv.1 = k
    · simp [filter_reportable, lookupKey, h]
    · simp only [filter_reportable, List.map_cons] at ih ⊢
      simp [lookupKey, h, ih]

/-- Claim C10: when the fetched resource list does not include the reserved
identifier `glossary_`, the fold in `Transifex.stats` fails with a lookup
error (`defaultdict.pop` does not consult the default factory) instead of
returning a snapshot. -/
theorem c10_missing_glossary_fails (response : List (String × PStat))
    (h : ∀ kv ∈ response, kv.1 ≠ "glossary_") :
    Transifex.stats response = none := by
  have hk : "glossary_" ∉ keys (buildDict response) := by
    rw [mem_keys_buildDict]
    intro hm
    obtain ⟨kv, hkv, he⟩ := List.mem_map.mp hm
    exact h kv hkv he
  have hnone := lookupKey_eq_none_iff.mpr hk
  simp [Transifex.stats, hnone]

/-- Witness for C10 at a concrete resource list. -/
theorem c10_witness :
    Transifex.stats [("python", (⟨some 1, none, none, none, none⟩ : PStat))] = none :=
  c10_missing_glossary_fails _ (by decide)

/-- Claim C6: a snapshot of two resources whose identifiers share the same
`--` head (a prefix other than the reserved key, which is handled by the
separately specified rename) groups, under `group_resources = true`, into a
single entry keyed by that head whose record is the field-wise sum of the two
input records (absent input fields counting as zero); the records may not
both be empty dicts, since an empty record never creates its key. -/
theorem c6_grouping_sums (r1 r2 p : String) (a b : PStat)
    (hp1 : groupKey r1 = p) (hp2 : groupKey r2 = p) (hpg : p ≠ "glossary_")
    (hne : a.isEmpty = false ∨ b.isEmpty = false) :
    serialize_report [(r1, a), (r2, b)] true = [(p, addRaw (addRaw Stat.zero a) b)] := by
  have hgr : group_records [(r1, a), (r2, b)] true = [(p, addRaw (addRaw Stat.zero a) b)] := by
    rw [group_records]
    simp only [List.foldl_cons, List.foldl_nil, groupStep, targetKey, if_true]
    by_cases ha : a.isEmpty
    · have hb : b.isEmpty = false := by
        rcases hne with h | h
        · rw [ha] at h; cases h
        · exact h
      simp [ha, hb, bump, hp2, addRaw_of_isEmpty Stat.zero a ha]
    · by_cases hb : b.isEmpty
      · simp [ha, hb, bump, hp1, addRaw_of_isEmpty (addRaw Stat.zero a) b hb]
      · simp [ha, hb, bump, hp1, hp2]
  rw [serialize_report, hgr, renameGlossary]
  rw [show lookupKey "glossary_" [(p, addRaw (addRaw Stat.zero a) b)] = none from by
    simp [lookupKey, hpg]]

/-- Witness for C6: the spec's own example, evaluated to the concrete sum. -/
theorem c6_witness :
    serialize_report
        [("c-api--abstract", (⟨some 10, none, some 100, none, none⟩ : PStat)),
         ("c-api--allocation", (⟨some 5, none, some 50, none, none⟩ : PStat))] true
      = [("c-api", (⟨15, 0, 150, 0, 0⟩ : Stat))] := by
  have h := c6_grouping_sums "c-api--abstract" "c-api--allocation" "c-api"
    ⟨some 10, none, some 100, none, none⟩ ⟨some 5, none, some 50, none, none⟩
    (by decide) (by decide) (by decide) (Or.inl (by decide))
  exact h.trans (by decide)

/-- Claim C7: with `group_resources = false` and a dict input whose records
are all non-empty, `serialize_report` keeps every key with its record
zero-defaulted on missing fields (every present field keeps its value), the
key `glossary_` never survives, and the key `glossary` carries the
`glossary_` record when one was present (the rename, which overwrites any
existing `glossary` entry) and the original `glossary` record otherwise. -/
theorem c7_identity_no_grouping (S : List (String × PStat)) (hnd : (keys S).Nodup)
    (hne : ∀ kv ∈ S, kv.2.isEmpty = false) :
    (∀ k, k ≠ "glossary" → k ≠ "glossary_" →
        lookupKey k (serialize_report S false) =
          (lookupKey k S).map (fun r => addRaw Stat.zero r))
      ∧ lookupKey "glossary_" (serialize_report S false) = none
      ∧ lookupKey "glossary" (serialize_report S false) =
          (match lookupKey "glossary_" S with
           | some r => some (addRaw Stat.zero r)
           | none => (lookupKey "glossary" S).map (fun r => addRaw Stat.zero r)) := by
  have hg : ∀ k, lookupKey k (group_records S false) =
      (lookupKey k S).map (fun r => addRaw Stat.zero r) := by
    intro k
    rw [group_records, lookupKey_foldl_groupStep_false S [] k hnd (by simp [keys])]
    cases hv : lookupKey k S with
    | none => rfl
    | some r =>
      have hmem := lookupKey_eq_some_mem hv
      have hre : r.isEmpty = false := hne (k, r) hmem
      simp [hre]
  refine ⟨fun k h1 h2 => ?_, ?_, ?_⟩
  · rw [serialize_report, lookupKey_renameGlossary_other _ k h1 h2, hg k]
  · rw [serialize_report, lookupKey_renameGlossary_old]
  · rw [serialize_report, lookupKey_renameGlossary_new, hg "glossary_", hg "glossary"]
    cases hv : lookupKey "glossary_" S <;> rfl

/-- Witness for C7 at a concrete snapshot containing the reserved key. -/
theorem c7_witness :
    lookupKey "x"
        (serialize_report
          [("glossary_", (⟨some 1, none, none, none, none⟩ : PStat)),
           ("x", (⟨some 2, none, some 7, none, none⟩ : PStat))] false) =
        some ⟨2, 0, 7, 0, 0⟩
      ∧ lookupKey "glossary_"
          (serialize_report
            [("glossary_", (⟨some 1, none, none, none, none⟩ : PStat)),
             ("x", (⟨some 2, none, some 7, none, none⟩ : PStat))] false) = none
      ∧ lookupKey "glossary"
          (serialize_report
            [("glossary_", (⟨some 1, none, none, none, none⟩ : PStat)),
             ("x", (⟨some 2, none, some 7, none, none⟩ : PStat))] false) =
          some ⟨1, 0, 0, 0, 0⟩ := by
  have h := c7_identity_no_grouping
    [("glossary_", ⟨some 1, none, none, none, none⟩),
     ("x", ⟨some 2, none, some 7, none, none⟩)] (by decide) (by decide)
  refine ⟨?_, h.2.1, ?_⟩
  · exact (h.1 "x" (by decide) (by decide)).trans (by decide)
  · exact h.2.2.trans (by decide)

/-- Claim C9: when the reserved key `glossary_` is present in the raw input —
in the gathered response folded by `Transifex.stats` (carrying record `g`),
and in the input snapshot of `serialize_report` (with a non-empty record, so
its key is created) — every output carries the key `glossary` with that
record's (grouped) stats and never carries the key `glossary_`; for
`serialize_report` the rename happens after grouping, on the grouped output
keys, so `glossary` holds exactly the grouped `glossary_` record. -/
theorem c9_glossary_rename (response : List (String × PStat)) (g : PStat)
    (S : List (String × PStat)) (r : PStat) (b : Bool)
    (hg : lookupKey "glossary_" (buildDict response) = some g)
    (hr : lookupKey "glossary_" S = some r) (hre : r.isEmpty = false) :
    (∃ out, Transifex.stats response = some out ∧
        lookupKey "glossary" out = some g ∧ lookupKey "glossary_" out = none)
      ∧ lookupKey "glossary_" (serialize_report S b) = none
      ∧ (∃ g2, lookupKey "glossary_" (group_records S b) = some g2 ∧
          lookupKey "glossary" (serialize_report S b) = some g2) := by
  refine ⟨?_, ?_, ?_⟩
  · refine ⟨sortDesc Prod.fst
      (setKey (removeKey "glossary_" (buildDict response)) "glossary" g), ?_, ?_, ?_⟩
    · simp [Transifex.stats, hg]
    · have hnd : (keys (setKey (removeKey "glossary_" (buildDict response))
          "glossary" g)).Nodup :=
        nodup_keys_setKey _ _ _ (nodup_keys_removeKey _ _ (nodup_keys_buildDict response))
      rw [lookupKey_sortDesc _ _ hnd]
      exact lookupKey_setKey_self _ _ _
    · have hnd : (keys (setKey (removeKey "glossary_" (buildDict response))
          "glossary" g)).Nodup :=
        nodup_keys_setKey _ _ _ (nodup_keys_removeKey _ _ (nodup_keys_buildDict response))
      rw [lookupKey_sortDesc _ _ hnd]
      rw [lookupKey_setKey_ne _ _ _ _ (by decide)]
      exact lookupKey_removeKey_self _ _
  · rw [serialize_report]
    exact lookupKey_renameGlossary_old _
  · have htk : targetKey b "glossary_" = "glossary_" := by
      cases b
      · rfl
      · rw [targetKey, if_pos rfl]
        decide
    have hmemk : "glossary_" ∈ keys (group_records S b) := by
      rw [group_records, mem_keys_foldl_groupStep]
      exact Or.inr ⟨("glossary_", r), lookupKey_eq_some_mem hr, hre, htk⟩
    obtain ⟨g2, hg2⟩ := lookupKey_isSome_of_mem_keys hmemk
    refine ⟨g2, hg2, ?_⟩
    rw [serialize_report, lookupKey_renameGlossary_new, hg2]

/-- Witness for C9 at a concrete response, snapshot and grouping flag. -/
theorem c9_witness :
    (∃ out, Transifex.stats
          [("glossary_", (⟨some 1, none, none, none, none⟩ : PStat)),
           ("python", (⟨some 2, none, none, none, none⟩ : PStat))] = some out ∧
        lookupKey "glossary" out = some ⟨some 1, none, none, none, none⟩ ∧
        lookupKey "glossary_" out = none)
      ∧ lookupKey "glossary_"
          (serialize_report
            [("glossary_", (⟨some 3, none, none, none, none⟩ : PStat))] true) = none
      ∧ (∃ g2, lookupKey "glossary_"
            (group_records
              [("glossary_", (⟨some 3, none, none, none, none⟩ : PStat))] true) = some g2 ∧
          lookupKey "glossary"
            (serialize_report
              [("glossary_", (⟨some 3, none, none, none, none⟩ : PStat))] true) = some g2) :=
  c9_glossary_rename
    [("glossary_", ⟨some 1, none, none, none, none⟩),
     ("python", ⟨some 2, none, none, none, none⟩)]
    ⟨some 1, none, none, none, none⟩
    [("glossary_", ⟨some 3, none, none, none, none⟩)]
    ⟨some 3, none, none, none, none⟩ true (by decide) (by decide) (by decide)

theorem getLast?_isSome_of_ne_nil {β : Type} (l : List β) (h : l ≠ []) :
    ∃ x, l.getLast? = some x :=
  ⟨l.getLast h, List.getLast?_eq_getLast l h⟩

/-- Claim C2 counterexample: with exactly 8 dated snapshots, the reference
read by `select_report_files` is the file at index 6 of the descending date
list (content `2`), not the one `windowDays = 7` positions prior (index 7,
content `1`). -/
theorem c2_counterexample :
    select_report_files
        [("2024-01-01.json", 1), ("2024-01-02.json", 2), ("2024-01-03.json", 3),
         ("2024-01-04.json", 4), ("2024-01-05.json", 5), ("2024-01-06.json", 6),
         ("2024-01-07.json", 7), ("2024-01-08.json", 8)] = some (8, 2) ∧
      select_report_files
        [("2024-01-01.json", 1), ("2024-01-02.json", 2), ("2024-01-03.json", 3),
         ("2024-01-04.json", 4), ("2024-01-05.json", 5), ("2024-01-06.json", 6),
         ("2024-01-07.json", 7), ("2024-01-08.json", 8)] ≠ some (8, 1) := by decide

/-- Claim C2 (amended): with more than 7 persisted snapshots (at least
`windowDays + 1 = 8`), `select_report_files` returns as latest the content of
the maximal (most recent) date and as reference the content of the date at
index `windowDays - 1 = 6` of the descending-sorted date list — one position
earlier than the claimed index 7. -/
theorem c2_selects_index6 {α : Type} (dir : List (String × α))
    (hlen : 7 < dir.length) :
    ∃ l p a c, (sortDesc id (keys dir)).head? = some l ∧
      (sortDesc id (keys dir))[6]? = some p ∧
      (∀ k ∈ keys dir, strLe k l = true) ∧
      lookupKey l dir = some a ∧ lookupKey p dir = some c ∧
      select_report_files dir = some (a, c) := by
  have hslen : (sortDesc id (keys dir)).length = dir.length := by
    rw [length_sortDesc]
    simp [keys]
  have hlen7 : 7 < (sortDesc id (keys dir)).length := by omega
  have h6 : 6 < (sortDesc id (keys dir)).length := by omega
  have h0 : 0 < (sortDesc id (keys dir)).length := by omega
  obtain ⟨l, hl⟩ : ∃ l, (sortDesc id (keys dir)).head? = some l := by
    cases hs : sortDesc id (keys dir) with
    | nil => rw [hs] at h0; simp at h0
    | cons x t => exact ⟨x, rfl⟩
  have hp6 : (sortDesc id (keys dir))[6]? = some ((sortDesc id (keys dir)).get ⟨6, h6⟩) :=
    List.getElem?_eq_getElem h6
  have hlmem : l ∈ keys dir := by
    rw [← mem_sortDesc id]
    cases hs : sortDesc id (keys dir) with
    | nil => rw [hs] at hl; cases hl
    | cons x t =>
      rw [hs] at hl
      cases hl
      exact List.mem_cons_self _ _
  have hpmem : (sortDesc id (keys dir)).get ⟨6, h6⟩ ∈ keys dir := by
    rw [← mem_sortDesc id]
    exact List.getElem_mem h6
  obtain ⟨a, ha⟩ := lookupKey_isSome_of_mem_keys hlmem
  obtain ⟨c, hc⟩ := lookupKey_isSome_of_mem_keys hpmem
  refine ⟨l, (sortDesc id (keys dir)).get ⟨6, h6⟩, a, c, hl, hp6, ?_, ha, hc, ?_⟩
  · intro k hk
    exact pairwise_head_max (pairwise_sortDesc id (keys dir)) hl
      ((mem_sortDesc id (keys dir) k).mpr hk)
  · simp only [select_report_files, hl, if_pos hlen7, hp6, ha, hc]

/-- Witness for C2 (amended) at a concrete 8-file store. -/
theorem c2_witness :
    ∃ l p a c,
      (sortDesc id (keys
        [("2024-01-01.json", 1), ("2024-01-02.json", 2), ("2024-01-03.json", 3),
         ("2024-01-04.json", 4), ("2024-01-05.json", 5), ("2024-01-06.json", 6),
         ("2024-01-07.json", 7), ("2024-01-08.json", 8)])).head? = some l ∧
      (sortDesc id (keys
        [("2024-01-01.json", 1), ("2024-01-02.json", 2), ("2024-01-03.json", 3),
         ("2024-01-04.json", 4), ("2024-01-05.json", 5), ("2024-01-06.json", 6),
         ("2024-01-07.json", 7), ("2024-01-08.json", 8)]))[6]? = some p ∧
      (∀ k ∈ keys
        [("2024-01-01.json", 1), ("2024-01-02.json", 2), ("2024-01-03.json", 3),
         ("2024-01-04.json", 4), ("2024-01-05.json", 5), ("2024-01-06.json", 6),
         ("2024-01-07.json", 7), ("2024-01-08.json", 8)], strLe k l = true) ∧
      lookupKey l
        [("2024-01-01.json", 1), ("2024-01-02.json", 2), ("2024-01-03.json", 3),
         ("2024-01-04.json", 4), ("2024-01-05.json", 5), ("2024-01-06.json", 6),
         ("2024-01-07.json", 7), ("2024-01-08.json", 8)] = some a ∧
      lookupKey p
        [("2024-01-01.json", 1), ("2024-01-02.json", 2), ("2024-01-03.json", 3),
         ("2024-01-04.json", 4), ("2024-01-05.json", 5), ("2024-01-06.json", 6),
         ("2024-01-07.json", 7), ("2024-01-08.json", 8)] = some c ∧
      select_report_files
        [("2024-01-01.json", 1), ("2024-01-02.json", 2), ("2024-01-03.json", 3),
         ("2024-01-04.json", 4), ("2024-01-05.json", 5), ("2024-01-06.json", 6),
         ("2024-01-07.json", 7), ("2024-01-08.json", 8)] = some (a, c) :=
  c2_selects_index6 _ (by decide)

/-- Claim C8: with at least one and at most 7 persisted snapshots (fewer than
`windowDays + 1 = 8`), `select_report_files` does not fail: it falls back to
the oldest available date (the minimum, i.e. the last of the descending
list) as the reference. -/
theorem c8_fallback_oldest {α : Type} (dir : List (String × α))
    (h0 : 0 < dir.length) (h7 : dir.length ≤ 7) :
    ∃ p c, p ∈ keys dir ∧ (∀ k ∈ keys dir, strLe p k = true) ∧
      lookupKey p dir = some c ∧
      ∃ a, select_report_files dir = some (a, c) := by
  have hslen : (sortDesc id (keys dir)).length = dir.length := by
    rw [length_sortDesc]
    simp [keys]
  have hs0 : 0 < (sortDesc id (keys dir)).length := by omega
  have hsne : sortDesc id (keys dir) ≠ [] := List.ne_nil_of_length_pos hs0
  obtain ⟨l, hl⟩ : ∃ l, (sortDesc id (keys dir)).head? = some l := by
    cases hs : sortDesc id (keys dir) with
    | nil => exact absurd hs hsne
    | cons x t => exact ⟨x, rfl⟩
  obtain ⟨p, hp⟩ := getLast?_isSome_of_ne_nil (sortDesc id (keys dir)) hsne
  have hlmem : l ∈ keys dir := by
    rw [← mem_sortDesc id]
    cases hs : sortDesc id (keys dir) with
    | nil => exact absurd hs hsne
    | cons x t =>
      rw [hs] at hl
      cases hl
      exact List.mem_cons_self _ _
  have hpmem : p ∈ keys dir := by
    rw [← mem_sortDesc id]
    obtain ⟨hne, he⟩ := List.mem_getLast?_eq_getLast (Option.mem_def.mpr hp)
    exact he ▸ List.getLast_mem hne
  obtain ⟨a, ha⟩ := lookupKey_isSome_of_mem_keys hlmem
  obtain ⟨c, hc⟩ := lookupKey_isSome_of_mem_keys hpmem
  refine ⟨p, c, hpmem, ?_, hc, a, ?_⟩
  · intro k hk
    exact pairwise_getLast_min (pairwise_sortDesc id (keys dir)) hp
      ((mem_sortDesc id (keys dir) k).mpr hk)
  · simp only [select_report_files, hl,
      if_neg (show ¬ 7 < (sortDesc id (keys dir)).length by omega), hp, ha, hc]

/-- Witness for C8 at a concrete 3-file store. -/
theorem c8_witness :
    ∃ p c, p ∈ keys [("2024-01-02.json", 2), ("2024-01-01.json", 1), ("2024-01-03.json", 3)] ∧
      (∀ k ∈ keys [("2024-01-02.json", 2), ("2024-01-01.json", 1), ("2024-01-03.json", 3)],
        strLe p k = true) ∧
      lookupKey p [("2024-01-02.json", 2), ("2024-01-01.json", 1), ("2024-01-03.json", 3)] =
        some c ∧
      ∃ a, select_report_files
        [("2024-01-02.json", 2), ("2024-01-01.json", 1), ("2024-01-03.json", 3)] =
        some (a, c) :=
  c8_fallback_oldest _ (by decide) (by decide)
